import Mathlib

/-!
Verification of the content-collection build pipeline of the
danielhoward-dev static site: schema validation of markdown frontmatter,
slug derivation from file paths, collection build with slug-uniqueness
checking, and the collection query API (list / getBySlug / paginate).

The pipeline itself is framework code not present among the repository's
checked files, so every operation below is modelled from the design
specification; the concrete content (frontmatter of the blog posts and
the project entry, the site constants) is transcribed from the
repository's files.
-/

namespace SitePipeline

/-- Collections partition the entry namespace: blog posts and projects. -/
inductive Collection
  | blog
  | projects
deriving DecidableEq, Repr

/-- Modelled from the spec: the error taxonomy of §7 — SchemaViolation
(invalid or missing frontmatter field), SlugCollision (two entries resolve
to the same collection+slug), NotFound (query for a nonexistent slug),
OutOfRange (pagination request past the last page). -/
inductive BuildError
  | SchemaViolation (field : String)
  | SlugCollision (slug : String)
  | NotFound
  | OutOfRange
deriving DecidableEq, Repr

/-- A raw frontmatter mapping as read from a markdown file head: every
field may be absent. -/
structure RawFrontmatter where
  title : Option String := none
  description : Option String := none
  date : Option String := none
  draft : Option Bool := none
  repoURL : Option String := none
  demoURL : Option String := none
deriving DecidableEq, Repr

/-- Typed, validated frontmatter: `title` (required, non-empty),
`description` (required), `date` (required, encoded yyyymmdd so that the
numeric order is the chronological order), `draft` (default false), and
the optional project fields `repoURL`, `demoURL`. -/
structure Frontmatter where
  title : String
  description : String
  date : Nat
  draft : Bool := false
  repoURL : Option String := none
  demoURL : Option String := none
deriving DecidableEq, Repr

/-- One markdown/MDX document of a collection. -/
structure ContentEntry where
  collection : Collection
  slug : String
  frontmatter : Frontmatter
  body : String := ""
deriving DecidableEq, Repr

/-- Splits a character list on the dash character; used by the date
parser for the `YYYY-MM-DD` format. -/
def splitOnDash : List Char → List (List Char)
  | [] => [[]]
  | c :: rest =>
    let r := splitOnDash rest
    if c = '-' then [] :: r
    else
      match r with
      | [] => [[c]]
      | g :: gs => (c :: g) :: gs

/-- Reads a run of decimal digits as a number; `none` when any character
is not a digit. -/
def digitsToNat : List Char → Option Nat
  | [] => some 0
  | c :: rest =>
    if c.isDigit then
      match digitsToNat rest with
      | none => none
      | some n => some ((c.toNat - 48) * 10 ^ rest.length + n)
    else none

/-- Modelled from the spec: the date-parseable check of the Validator
(§4.1). Accepts `YYYY-MM-DD` with a plausible month and day and returns
the yyyymmdd encoding. -/
def parseDate (s : String) : Option Nat :=
  match splitOnDash s.data with
  | [y, m, d] =>
    if y.length = 4 ∧ m.length = 2 ∧ d.length = 2 then
      match digitsToNat y, digitsToNat m, digitsToNat d with
      | some yn, some mn, some dn =>
        if 1 ≤ mn ∧ mn ≤ 12 ∧ 1 ≤ dn ∧ dn ≤ 31 then
          some (yn * 10000 + mn * 100 + dn)
        else none
      | _, _, _ => none
    else none
  | _ => none

/-- URL well-formedness check used by the Validator for declared URL
fields: the scheme must be http or https. -/
def isWellFormedURL (s : String) : Bool :=
  "https://".data.isPrefixOf s.data || "http://".data.isPrefixOf s.data

/-- An optional URL field passes when absent or well-formed. -/
def urlOk : Option String → Bool
  | none => true
  | some u => isWellFormedURL u

/-- Modelled from the spec: the Schema Validator (§4.1), whose code is
framework-side and not among the repository's checked files. Validation
order follows the contract: required-field presence checks first
(`title`, `description`, `date`), then per-field type/format checks
(title non-empty, date parseable, URLs well-formed where declared); the
result carries the input fields unchanged with `draft` defaulting to
false. Pure function: no side effect. -/
def validateFrontmatter (c : Collection) (raw : RawFrontmatter) :
    Except BuildError Frontmatter :=
  match raw.title with
  | none => .error (.SchemaViolation "title")
  | some t =>
    match raw.description with
    | none => .error (.SchemaViolation "description")
    | some desc =>
      match raw.date with
      | none => .error (.SchemaViolation "date")
      | some ds =>
        if t = "" then .error (.SchemaViolation "title")
        else
          match parseDate ds with
          | none => .error (.SchemaViolation "date")
          | some dn =>
            if urlOk raw.repoURL = false then .error (.SchemaViolation "repoURL")
            else if urlOk raw.demoURL = false then .error (.SchemaViolation "demoURL")
            else .ok { title := t, description := desc, date := dn,
                       draft := raw.draft.getD false,
                       repoURL := raw.repoURL, demoURL := raw.demoURL }

/-- Lower-cases every character of a string. -/
def lowerStr (s : String) : String := String.mk (s.data.map Char.toLower)

/-- Removes everything from the last dot onward; the whole list when no
dot occurs. -/
def dropAfterLastDot (cs : List Char) : List Char :=
  match cs.reverse.dropWhile (fun c => c ≠ '.') with
  | [] => cs
  | _ :: rest => rest.reverse

/-- Removes the file extension of a file name. -/
def stripExt (s : String) : String := String.mk (dropAfterLastDot s.data)

/-- Joins path segments with the slash separator. -/
def joinSlash : List String → String
  | [] => ""
  | [s] => s
  | s :: t :: rest => s ++ "/" ++ joinSlash (t :: rest)

/-- The slug segments of a root-relative path: the file name loses its
extension, and a file named `index` contributes nothing, so the slug of
an `index` document is its directory name. -/
def slugSegments (rel : List String) : List String :=
  match rel.getLast? with
  | none => []
  | some f =>
    let base := stripExt f
    rel.dropLast ++ (if base = "index" then [] else [base])

/-- Modelled from the spec: the Slug Deriver (§4.2), implemented
framework-side by file-based routing and not among the repository's
checked files. Strips the collection root, strips the file extension,
drops a trailing `index` segment, lower-cases the segments and joins
them with a slash. -/
def deriveSlug (root path : List String) : String :=
  joinSlash ((slugSegments (path.drop root.length)).map lowerStr)

/-- Validates one file of a collection and attaches its derived slug. -/
def entryOfFile (c : Collection) (root : List String)
    (f : List String × RawFrontmatter) : Except BuildError ContentEntry :=
  match validateFrontmatter c f.2 with
  | .error e => .error e
  | .ok fm => .ok { collection := c, slug := deriveSlug root f.1, frontmatter := fm }

/-- Applies a fallible function to every element, failing on the first
error; no element is ever silently dropped. -/
def mapExcept (g : α → Except BuildError β) : List α → Except BuildError (List β)
  | [] => .ok []
  | a :: as =>
    match g a with
    | .error e => .error e
    | .ok b =>
      match mapExcept g as with
      | .error e => .error e
      | .ok bs => .ok (b :: bs)

/-- First value occurring twice in a list, `none` when all are distinct. -/
def firstDup : List String → Option String
  | [] => none
  | s :: rest => if s ∈ rest then some s else firstDup rest

/-- Modelled from the spec: the collection build step — validate every
file, derive slugs, and enforce the slug-uniqueness invariant (§3): a
collision is build-fatal, never resolved by dropping an entry. -/
def buildCollection (c : Collection) (root : List String)
    (files : List (List String × RawFrontmatter)) :
    Except BuildError (List ContentEntry) :=
  match mapExcept (entryOfFile c root) files with
  | .error e => .error e
  | .ok entries =>
    match firstDup (entries.map ContentEntry.slug) with
    | some s => .error (.SlugCollision s)
    | none => .ok entries

/-- Query mode: production excludes drafts, preview includes them. -/
inductive Mode
  | production
  | preview
deriving DecidableEq, Repr

/-- The filter of `list()`: production keeps only non-draft entries,
preview keeps everything. -/
def keepEntry : Mode → ContentEntry → Bool
  | .production, e => !e.frontmatter.draft
  | .preview, _ => true

/-- Lexicographic comparison of character lists, kernel-computable. -/
def lexLe : List Char → List Char → Bool
  | [], _ => true
  | _ :: _, [] => false
  | a :: as, b :: bs => if a < b then true else if b < a then false else lexLe as bs

/-- The default sort order of `list()`: descending by date, ties broken
by ascending slug for determinism. -/
def entryOrder (a b : ContentEntry) : Prop :=
  b.frontmatter.date < a.frontmatter.date ∨
    (a.frontmatter.date = b.frontmatter.date ∧ lexLe a.slug.data b.slug.data = true)

instance : DecidableRel entryOrder := fun a b =>
  inferInstanceAs (Decidable (b.frontmatter.date < a.frontmatter.date ∨
    (a.frontmatter.date = b.frontmatter.date ∧ lexLe a.slug.data b.slug.data = true)))

/-- Modelled from the spec: the `list` operation of the Collection Query
API (§4.3) with the default sort key — filter by mode, sort by
descending date with slug-ascending tie-break, truncate to the limit
when one is given. -/
def listEntries (m : Mode) (limit : Option Nat) (es : List ContentEntry) :
    List ContentEntry :=
  let kept := es.filter (keepEntry m)
  let sorted := List.insertionSort entryOrder kept
  match limit with
  | none => sorted
  | some k => sorted.take k

/-- Modelled from the spec: `getBySlug` (§4.3) — the single matching
entry, or NotFound. -/
def getBySlug (es : List ContentEntry) (slug : String) :
    Except BuildError ContentEntry :=
  match es.find? (fun e => e.slug == slug) with
  | none => .error .NotFound
  | some e => .ok e

/-- A page: the slice of entries, the total entry count, and the
next/previous-page flags. -/
structure Page where
  entries : List ContentEntry
  total : Nat
  hasNext : Bool
  hasPrev : Bool
deriving DecidableEq, Repr

/-- Modelled from the spec: `paginate` (§4.3). Page numbers are
1-indexed; a request past the last available page fails with OutOfRange
rather than returning an empty page. -/
def paginate (es : List ContentEntry) (pageSize pageNumber : Nat) :
    Except BuildError Page :=
  let total := es.length
  if pageNumber = 0 then .error .OutOfRange
  else
    let start := (pageNumber - 1) * pageSize
    if total ≤ start then .error .OutOfRange
    else .ok { entries := (es.drop start).take pageSize
             , total := total
             , hasNext := decide (start + pageSize < total)
             , hasPrev := decide (1 < pageNumber) }

/-- Entries used by the spec's listing test scenario: two entries dated
2024-06-23 slugged "a-post" and "b-post", one dated 2024-07-16. -/
def eA : ContentEntry := { collection := .blog, slug := "a-post",
                           frontmatter := { title := "a", description := "a", date := 20240623 } }

/-- The "b-post" test entry, tied on date with `eA`. -/
def eB : ContentEntry := { collection := .blog, slug := "b-post",
                           frontmatter := { title := "b", description := "b", date := 20240623 } }

/-- The 2024-07-16 test entry. -/
def eC : ContentEntry := { collection := .blog, slug := "c-post",
                           frontmatter := { title := "c", description := "c", date := 20240716 } }

/-- A fourth test entry, for the pagination scenario. -/
def eD : ContentEntry := { collection := .blog, slug := "d-post",
                           frontmatter := { title := "d", description := "d", date := 20240601 } }

/-- A fifth test entry, for the pagination scenario. -/
def eE : ContentEntry := { collection := .blog, slug := "e-post",
                           frontmatter := { title := "e", description := "e", date := 20240503 } }

/-- The five entries of the spec's pagination scenario. -/
def fiveEntries : List ContentEntry := [eC, eA, eB, eD, eE]

/-- Site identity record, matching the `Site` type of `src/consts.ts`. -/
structure Site where
  TITLE : String
  DESCRIPTION : String
  EMAIL : String
  NUM_POSTS_ON_HOMEPAGE : Nat
  NUM_PROJECTS_ON_HOMEPAGE : Nat
deriving DecidableEq, Repr

/-- The `SITE` constant of `src/consts.ts`. -/
def SITE : Site :=
  { TITLE := "Software Interrupt"
  , DESCRIPTION := "Software Interrupt is the engineering blog of Daniel Howard."
  , EMAIL := "danielhoward314@gmail.com"
  , NUM_POSTS_ON_HOMEPAGE := 5
  , NUM_PROJECTS_ON_HOMEPAGE := 3 }

/-- The blog collection root directory `src/content/blog`. -/
def blogRoot : List String := ["src", "content", "blog"]

/-- Frontmatter of `src/content/blog/project-planning/index.md`
("Cloud Inventory: Planning the project", 2024-06-16; no draft key). -/
def planningRaw : RawFrontmatter :=
  { title := some "Cloud Inventory: Planning the project"
  , description := some "Outlining the why, what, and how of my cloud inventory."
  , date := some "2024-06-16" }

/-- Frontmatter of `src/content/blog/implementing-account-signup/index.md`
("Cloud Inventory: Implementing Signup", 2024-06-23; no draft key). -/
def signupRaw : RawFrontmatter :=
  { title := some "Cloud Inventory: Implementing Signup"
  , description := some "How I implemented a signup flow with email verification."
  , date := some "2024-06-23" }

/-- Frontmatter of the "Working with oneof protobuf fields" post
(2024-07-16; no draft key). Modelled from the spec: the file is present
in the repository with its directory name not among the checked paths,
so the directory is named here after the post's title. -/
def oneofRaw : RawFrontmatter :=
  { title := some "Working with oneof protobuf fields"
  , description := some "I send a note to my future self about protobuf oneof fields."
  , date := some "2024-07-16" }

/-- The blog collection's files: root-relative directories per the
file-based routing convention, each holding an `index.md` document. -/
def blogFiles : List (List String × RawFrontmatter) :=
  [ (["src", "content", "blog", "project-planning", "index.md"], planningRaw)
  , (["src", "content", "blog", "implementing-account-signup", "index.md"], signupRaw)
  , (["src", "content", "blog", "working-with-oneof-protobuf-fields", "index.md"], oneofRaw) ]

/-- The projects collection root directory `src/content/projects`. -/
def projectsRoot : List String := ["src", "content", "projects"]

/-- Frontmatter of `src/content/projects/cloud-inventory/index.md`
("Cloud Inventory", 2024-03-26, repoURL declared, demoURL commented out,
no draft key). -/
def cloudInventoryRaw : RawFrontmatter :=
  { title := some "Cloud Inventory"
  , description := some "A single pane of glass for all of your cloud resources."
  , date := some "2024-03-26"
  , repoURL := some "https://github.com/danielhoward314/cloud-inventory" }

/-- The projects collection's files. -/
def projectFiles : List (List String × RawFrontmatter) :=
  [ (["src", "content", "projects", "cloud-inventory", "index.md"], cloudInventoryRaw) ]

/-- The built blog collection of this repository. -/
def blogEntries : List ContentEntry :=
  match buildCollection .blog blogRoot blogFiles with
  | .ok es => es
  | .error _ => []

/-- The built projects collection of this repository. -/
def projectEntries : List ContentEntry :=
  match buildCollection .projects projectsRoot projectFiles with
  | .ok es => es
  | .error _ => []

/-- A draft test entry, for the draft-exclusion scenario. -/
def eDraft : ContentEntry :=
  { collection := .blog, slug := "draft-post",
    frontmatter := { title := "w", description := "w", date := 20240801, draft := true } }

/-- The built entry of the planning post, as produced by the blog
collection build. -/
def planningEntry : ContentEntry :=
  { collection := .blog, slug := "project-planning",
    frontmatter := { title := "Cloud Inventory: Planning the project"
                   , description := "Outlining the why, what, and how of my cloud inventory."
                   , date := 20240616 } }

end SitePipeline

namespace SitePipeline

/-- Lexicographic comparison is total. -/
theorem lexLe_total : ∀ as bs : List Char, lexLe as bs = true ∨ lexLe bs as = true
  | [], _ => Or.inl rfl
  | _ :: _, [] => Or.inr rfl
  | a :: as, b :: bs => by
    rcases lt_trichotomy a b with h | h | h
    · left; simp [lexLe, h]
    · subst h
      rcases lexLe_total as bs with ih | ih
      · left; simp [lexLe, lt_irrefl, ih]
      · right; simp [lexLe, lt_irrefl, ih]
    · right; simp [lexLe, h]

/-- Lexicographic comparison is transitive. -/
theorem lexLe_trans : ∀ as bs cs : List Char,
    lexLe as bs = true → lexLe bs cs = true → lexLe as cs = true
  | [], _, _, _, _ => rfl
  | _ :: _, [], _, h1, _ => by simp [lexLe] at h1
  | _ :: _, _ :: _, [], _, h2 => by simp [lexLe] at h2
  | a :: as, b :: bs, c :: cs, h1, h2 => by
    simp only [lexLe] at h1 h2 ⊢
    split_ifs at h1 with hab hba
    · split_ifs at h2 with hbc hcb
      · simp [lt_trans hab hbc]
      · have hbc2 : b = c := le_antisymm (le_of_not_lt hcb) (le_of_not_lt hbc)
        simp [hbc2 ▸ hab]
    · have hab2 : a = b := le_antisymm (le_of_not_lt hba) (le_of_not_lt hab)
      subst hab2
      split_ifs at h2 with hbc hcb
      · simp [hbc]
      · have hac : a = c := le_antisymm (le_of_not_lt hcb) (le_of_not_lt hbc)
        subst hac
        simpa [lt_irrefl] using lexLe_trans as bs cs h1 h2

/-- The default sort order of the query API is total. -/
theorem entryOrder_total : IsTotal ContentEntry entryOrder := by
  constructor
  intro a b
  rcases lt_trichotomy a.frontmatter.date b.frontmatter.date with h | h | h
  · right; exact Or.inl h
  · rcases lexLe_total a.slug.data b.slug.data with hl | hl
    · left; exact Or.inr ⟨h, hl⟩
    · right; exact Or.inr ⟨h.symm, hl⟩
  · left; exact Or.inl h

/-- The default sort order of the query API is transitive. -/
theorem entryOrder_trans : IsTrans ContentEntry entryOrder := by
  constructor
  intro a b c hab hbc
  rcases hab with h1 | ⟨h1, hs1⟩
  · rcases hbc with h2 | ⟨h2, _⟩
    · exact Or.inl (lt_trans h2 h1)
    · exact Or.inl (h2 ▸ h1)
  · rcases hbc with h2 | ⟨h2, hs2⟩
    · exact Or.inl (by rw [h1]; exact h2)
    · exact Or.inr ⟨h1.trans h2, lexLe_trans _ _ _ hs1 hs2⟩

/-- Every sequence produced by the list operation is sorted in the
default order, whatever the mode and limit. -/
theorem listEntries_sorted (m : Mode) (limit : Option Nat) (es : List ContentEntry) :
    (listEntries m limit es).Sorted entryOrder := by
  have hs := @List.sorted_insertionSort ContentEntry entryOrder _
      entryOrder_total entryOrder_trans (es.filter (keepEntry m))
  cases limit with
  | none => simpa [listEntries] using hs
  | some k => simpa [listEntries] using hs.sublist (List.take_sublist k _)

/-- C1: for every collection, `list()` with default arguments returns
its entries sorted by descending date with ties broken by ascending
slug; on entries dated 2024-07-16, 2024-06-23 and 2024-06-23 — the tied
pair slugged "b-post" and "a-post" — the returned order is the
2024-07-16 entry, then "a-post", then "b-post". -/
theorem C1_list_default_sorted :
    (∀ es : List ContentEntry, (listEntries .production none es).Sorted entryOrder) ∧
    listEntries .production none [eB, eC, eA] = [eC, eA, eB] := by
  constructor
  · intro es
    exact listEntries_sorted .production none es
  · decide

/-- C1 witness: the general sortedness conjunct evaluated on the
concrete three-entry scenario. -/
theorem C1_list_default_sorted_witness :
    (listEntries .production none [eB, eC, eA]).Sorted entryOrder ∧
    listEntries .production none [eB, eC, eA] = [eC, eA, eB] :=
  ⟨C1_list_default_sorted.1 [eB, eC, eA], C1_list_default_sorted.2⟩

end SitePipeline

namespace SitePipeline

/-- C2: paginate is 1-indexed and returns the page slice with the total
count and next/previous flags; any page number strictly beyond the last
available page fails with OutOfRange. Over 5 entries with page size 2,
page 1 has 2 entries and hasNext, page 3 has 1 entry and no hasNext,
page 4 — and page 0, since numbering starts at 1 — is OutOfRange. -/
theorem C2_paginate_bounds :
    (∀ (es : List ContentEntry) (size num : Nat),
        0 < size → (es.length + size - 1) / size < num →
        paginate es size num = .error .OutOfRange) ∧
    paginate fiveEntries 2 1 = .ok ⟨[eC, eA], 5, true, false⟩ ∧
    paginate fiveEntries 2 3 = .ok ⟨[eE], 5, false, true⟩ ∧
    paginate fiveEntries 2 4 = .error .OutOfRange ∧
    paginate fiveEntries 2 0 = .error .OutOfRange := by
  refine ⟨?_, rfl, rfl, rfl, rfl⟩
  intro es size num hsize hnum
  have hnum0 : ¬ num = 0 := fun h => Nat.not_lt_zero _ (h ▸ hnum)
  have key : es.length ≤ ((es.length + size - 1) / size) * size := by
    have hdm := Nat.div_add_mod (es.length + size - 1) size
    have hm : (es.length + size - 1) % size < size := Nat.mod_lt _ hsize
    have hc : ((es.length + size - 1) / size) * size
        = size * ((es.length + size - 1) / size) := Nat.mul_comm _ _
    omega
  have h2 : ((es.length + size - 1) / size) * size ≤ (num - 1) * size :=
    Nat.mul_le_mul_right _ (by omega)
  have h3 : es.length ≤ (num - 1) * size := le_trans key h2
  simp [paginate, hnum0, h3]

/-- C2 witness: the OutOfRange conjunct evaluated at 5 entries, page
size 2, page 4 — one page beyond the last. -/
theorem C2_paginate_bounds_witness :
    0 < 2 ∧ (fiveEntries.length + 2 - 1) / 2 < 4 ∧
    paginate fiveEntries 2 4 = .error .OutOfRange :=
  ⟨by decide, by decide, C2_paginate_bounds.1 fiveEntries 2 4 (by decide) (by decide)⟩

end SitePipeline

namespace SitePipeline

/-- A successful validation pass preserves the file count: no entry is
silently dropped. -/
theorem mapExcept_ok_length {α β : Type} {g : α → Except BuildError β} :
    ∀ {as : List α} {bs : List β}, mapExcept g as = .ok bs → bs.length = as.length := by
  intro as
  induction as with
  | nil =>
    intro bs h
    simp only [mapExcept] at h
    cases h
    rfl
  | cons a as ih =>
    intro bs h
    simp only [mapExcept] at h
    cases hg : g a with
    | error e => rw [hg] at h; cases h
    | ok b =>
      rw [hg] at h
      cases hm : mapExcept g as with
      | error e => rw [hm] at h; cases h
      | ok bs2 =>
        rw [hm] at h
        cases h
        simp [ih hm]

/-- One failing element fails the whole validation pass. -/
theorem mapExcept_error_of_mem {α β : Type} {g : α → Except BuildError β} :
    ∀ {as : List α} {a : α} {e : BuildError}, a ∈ as → g a = .error e →
      ∃ e2, mapExcept g as = .error e2 := by
  intro as
  induction as with
  | nil => intro a e h _; cases h
  | cons a0 as ih =>
    intro a e hmem hge
    rcases List.mem_cons.mp hmem with rfl | hmem2
    · exact ⟨e, by simp [mapExcept, hge]⟩
    · cases hg0 : g a0 with
      | error e0 => exact ⟨e0, by simp [mapExcept, hg0]⟩
      | ok b0 =>
        rcases ih hmem2 hge with ⟨e2, hm⟩
        exact ⟨e2, by simp [mapExcept, hg0, hm]⟩

/-- When every element validates, the whole pass succeeds. -/
theorem mapExcept_ok_of_forall {α β : Type} {g : α → Except BuildError β} :
    ∀ {as : List α}, (∀ a ∈ as, ∃ b, g a = .ok b) →
      ∃ bs, mapExcept g as = .ok bs := by
  intro as
  induction as with
  | nil => intro _; exact ⟨[], rfl⟩
  | cons a as ih =>
    intro h
    rcases h a (by simp) with ⟨b, hb⟩
    rcases ih (fun x hx => h x (by simp [hx])) with ⟨bs, hbs⟩
    exact ⟨b :: bs, by simp [mapExcept, hb, hbs]⟩

/-- A successful validation pass derives exactly the slugs of the input
paths, in order. -/
theorem mapExcept_entryOfFile_slugs {c : Collection} {root : List String} :
    ∀ {files : List (List String × RawFrontmatter)} {es : List ContentEntry},
      mapExcept (entryOfFile c root) files = .ok es →
      es.map ContentEntry.slug = files.map (fun f => deriveSlug root f.1) := by
  intro files
  induction files with
  | nil =>
    intro es h
    simp only [mapExcept] at h
    cases h
    rfl
  | cons f fs ih =>
    intro es h
    simp only [mapExcept] at h
    cases hv : validateFrontmatter c f.2 with
    | error e =>
      rw [show entryOfFile c root f = .error e from by simp [entryOfFile, hv]] at h
      cases h
    | ok fm =>
      rw [show entryOfFile c root f
          = .ok { collection := c, slug := deriveSlug root f.1, frontmatter := fm }
          from by simp [entryOfFile, hv]] at h
      cases hm : mapExcept (entryOfFile c root) fs with
      | error e => rw [hm] at h; cases h
      | ok es2 =>
        rw [hm] at h
        cases h
        simp [ih hm]

/-- C3: a frontmatter missing a required field fails with
SchemaViolation naming that field — title, description and date checked
for presence in that order — and a single invalid entry fails the whole
collection build even when every other entry is valid, while a
successful build keeps every entry (none is silently dropped). -/
theorem C3_schema_violation_fatal :
    (∀ (c : Collection) (raw : RawFrontmatter), raw.title = none →
        validateFrontmatter c raw = .error (.SchemaViolation "title")) ∧
    (∀ (c : Collection) (raw : RawFrontmatter), raw.title.isSome → raw.description = none →
        validateFrontmatter c raw = .error (.SchemaViolation "description")) ∧
    (∀ (c : Collection) (raw : RawFrontmatter), raw.title.isSome → raw.description.isSome →
        raw.date = none → validateFrontmatter c raw = .error (.SchemaViolation "date")) ∧
    (∀ (c : Collection) (root : List String)
        (files : List (List String × RawFrontmatter))
        (f : List String × RawFrontmatter) (e : BuildError), f ∈ files →
        validateFrontmatter c f.2 = .error e →
        ∃ e2, buildCollection c root files = .error e2) ∧
    (∀ (c : Collection) (root : List String)
        (files : List (List String × RawFrontmatter)) (es : List ContentEntry),
        buildCollection c root files = .ok es → es.length = files.length) := by
  refine ⟨?_, ?_, ?_, ?_, ?_⟩
  · intro c raw h
    simp [validateFrontmatter, h]
  · intro c raw h1 h2
    rcases Option.isSome_iff_exists.mp h1 with ⟨t, ht⟩
    simp [validateFrontmatter, ht, h2]
  · intro c raw h1 h2 h3
    rcases Option.isSome_iff_exists.mp h1 with ⟨t, ht⟩
    rcases Option.isSome_iff_exists.mp h2 with ⟨d, hd⟩
    simp [validateFrontmatter, ht, hd, h3]
  · intro c root files f e hmem hval
    have hef : entryOfFile c root f = .error e := by simp [entryOfFile, hval]
    rcases mapExcept_error_of_mem hmem hef with ⟨e2, hm⟩
    exact ⟨e2, by simp [buildCollection, hm]⟩
  · intro c root files es h
    cases hm : mapExcept (entryOfFile c root) files with
    | error e =>
      rw [show buildCollection c root files = .error e
          from by simp [buildCollection, hm]] at h
      cases h
    | ok es2 =>
      cases hfd : firstDup (es2.map ContentEntry.slug) with
      | some s =>
        rw [show buildCollection c root files = .error (.SlugCollision s)
            from by simp [buildCollection, hm, hfd]] at h
        cases h
      | none =>
        rw [show buildCollection c root files = .ok es2
            from by simp [buildCollection, hm, hfd]] at h
        cases h
        exact mapExcept_ok_length hm

/-- C3 witness: the three missing-field cases on concrete inputs, a
one-bad-file build that fails, and the repository's blog build that
keeps all three entries. -/
theorem C3_schema_violation_fatal_witness :
    validateFrontmatter .blog {} = .error (.SchemaViolation "title") ∧
    validateFrontmatter .blog { title := some "x" } = .error (.SchemaViolation "description") ∧
    validateFrontmatter .blog { title := some "x", description := some "y" }
      = .error (.SchemaViolation "date") ∧
    (∃ e2, buildCollection .blog blogRoot
        [ (["src", "content", "blog", "good", "index.md"], planningRaw)
        , (["src", "content", "blog", "bad", "index.md"], {}) ] = .error e2) ∧
    blogEntries.length = blogFiles.length :=
  ⟨ C3_schema_violation_fatal.1 .blog {} rfl
  , C3_schema_violation_fatal.2.1 .blog { title := some "x" } rfl rfl
  , C3_schema_violation_fatal.2.2.1 .blog { title := some "x", description := some "y" } rfl rfl rfl
  , C3_schema_violation_fatal.2.2.2.1 .blog blogRoot _
      (["src", "content", "blog", "bad", "index.md"], {}) (.SchemaViolation "title")
      (by simp) rfl
  , C3_schema_violation_fatal.2.2.2.2 .blog blogRoot blogFiles blogEntries rfl ⟩

end SitePipeline

namespace SitePipeline

/-- firstDup returns nothing exactly when the list has no duplicate. -/
theorem firstDup_eq_none_iff : ∀ {l : List String}, firstDup l = none ↔ l.Nodup := by
  intro l
  induction l with
  | nil => simp [firstDup]
  | cons s rest ih =>
    by_cases h : s ∈ rest
    · simp [firstDup, h]
    · simp [firstDup, h, ih]

/-- C4: two distinct file paths of one collection that map to the same
slug make the build fail with SlugCollision; the collision is never
resolved by keeping one entry and dropping the other. -/
theorem C4_slug_collision_fatal :
    ∀ (c : Collection) (root : List String)
      (files : List (List String × RawFrontmatter))
      (f1 f2 : List String × RawFrontmatter),
      (∀ f ∈ files, ∃ fm, validateFrontmatter c f.2 = .ok fm) →
      f1 ∈ files → f2 ∈ files → f1.1 ≠ f2.1 →
      deriveSlug root f1.1 = deriveSlug root f2.1 →
      ∃ s, buildCollection c root files = .error (.SlugCollision s) := by
  intro c root files f1 f2 hvalid h1 h2 hne hslug
  have hall : ∀ f ∈ files, ∃ b, entryOfFile c root f = .ok b := by
    intro f hf
    rcases hvalid f hf with ⟨fm, hfm⟩
    exact ⟨{ collection := c, slug := deriveSlug root f.1, frontmatter := fm },
           by simp [entryOfFile, hfm]⟩
  rcases mapExcept_ok_of_forall hall with ⟨es, hm⟩
  have hslugs := mapExcept_entryOfFile_slugs hm
  have hdup : ¬ (files.map (fun f => deriveSlug root f.1)).Nodup := by
    intro hnd
    exact hne (congrArg Prod.fst (List.inj_on_of_nodup_map hnd h1 h2 hslug))
  cases hfdc : firstDup (es.map ContentEntry.slug) with
  | none =>
    rw [firstDup_eq_none_iff, hslugs] at hfdc
    exact absurd hfdc hdup
  | some s => exact ⟨s, by simp [buildCollection, hm, hfdc]⟩

/-- C4 witness: two distinct paths differing only in case collide on the
lower-cased slug "post" and the build fails with SlugCollision. -/
theorem C4_slug_collision_fatal_witness :
    ∃ s, buildCollection .blog []
        [ (["Post.md"], planningRaw), (["post.md"], planningRaw) ]
      = .error (.SlugCollision s) :=
  C4_slug_collision_fatal .blog []
    [ (["Post.md"], planningRaw), (["post.md"], planningRaw) ]
    (["Post.md"], planningRaw) (["post.md"], planningRaw)
    (by
      intro f hf
      rcases List.mem_cons.mp hf with rfl | hf2
      · exact ⟨_, rfl⟩
      · rcases List.mem_cons.mp hf2 with rfl | h3
        · exact ⟨_, rfl⟩
        · cases h3)
    (by simp) (by simp) (by decide) (by decide)

end SitePipeline

namespace SitePipeline

/-- C5: the slug of a path under a collection root is obtained by
stripping the root prefix and the file extension, lower-casing the
segments and joining them with a slash; an `index` document inside a
directory gets the directory's name as slug; and derivation is
deterministic. The signup post's path yields exactly its directory
name. -/
theorem C5_derive_slug_contract :
    (∀ root rel : List String,
        deriveSlug root (root ++ rel) = joinSlash ((slugSegments rel).map lowerStr)) ∧
    (∀ (root : List String) (dir : String),
        deriveSlug root (root ++ [dir, "index.md"]) = lowerStr dir) ∧
    (∀ (root p q : List String), p = q → deriveSlug root p = deriveSlug root q) ∧
    deriveSlug blogRoot ["src", "content", "blog", "implementing-account-signup", "index.md"]
      = "implementing-account-signup" := by
  refine ⟨?_, ?_, ?_, by decide⟩
  · intro root rel
    simp [deriveSlug, List.drop_left]
  · intro root dir
    have h1 : deriveSlug root (root ++ [dir, "index.md"])
        = joinSlash ((slugSegments [dir, "index.md"]).map lowerStr) := by
      simp [deriveSlug, List.drop_left]
    have hse : stripExt "index.md" = "index" := rfl
    have h2 : slugSegments [dir, "index.md"] = [dir] := by
      simp [slugSegments, hse]
    rw [h1, h2]
    simp [joinSlash]
  · intro root p q h
    rw [h]

/-- C5 witness: the index-document conjunct at the cloud-inventory
directory and the determinism conjunct at a concrete path. -/
theorem C5_derive_slug_contract_witness :
    deriveSlug ["c"] (["c"] ++ ["cloud-inventory", "index.md"]) = lowerStr "cloud-inventory" ∧
    deriveSlug [] ["x.md"] = deriveSlug [] ["x.md"] :=
  ⟨C5_derive_slug_contract.2.1 ["c"] "cloud-inventory",
   C5_derive_slug_contract.2.2.1 [] ["x.md"] ["x.md"] rfl⟩

/-- C6: a frontmatter satisfying its collection's schema validates to
exactly its input fields — round-trip identity — with `draft` defaulting
from an absent field to false; the Validator is a pure function of the
raw mapping, so no other state is involved. -/
theorem C6_validator_round_trip :
    ∀ (c : Collection) (raw : RawFrontmatter) (t d ds : String) (dn : Nat),
      raw.title = some t → t ≠ "" →
      raw.description = some d →
      raw.date = some ds → parseDate ds = some dn →
      urlOk raw.repoURL = true → urlOk raw.demoURL = true →
      validateFrontmatter c raw = .ok
        { title := t, description := d, date := dn,
          draft := raw.draft.getD false,
          repoURL := raw.repoURL, demoURL := raw.demoURL } := by
  intro c raw t d ds dn ht hte hd hds hpd hr hdm
  simp [validateFrontmatter, ht, hd, hds, hte, hpd, hr, hdm]

/-- C6 witness: the repository's cloud-inventory project frontmatter —
optional repoURL declared, demoURL absent — validates to exactly its
input fields. -/
theorem C6_validator_round_trip_witness :
    validateFrontmatter .projects cloudInventoryRaw = .ok
      { title := "Cloud Inventory"
      , description := "A single pane of glass for all of your cloud resources."
      , date := 20240326
      , draft := false
      , repoURL := some "https://github.com/danielhoward314/cloud-inventory"
      , demoURL := none } :=
  C6_validator_round_trip .projects cloudInventoryRaw
    "Cloud Inventory" "A single pane of glass for all of your cloud resources."
    "2024-03-26" 20240326 rfl (by decide) rfl rfl rfl rfl rfl

end SitePipeline

namespace SitePipeline

/-- C7: getBySlug returns only an entry of the collection whose slug
matches; on a collection with unique slugs it returns exactly the
matching entry; when no entry matches it fails with NotFound — in
particular on the blog collection with slug "nonexistent". -/
theorem C7_get_by_slug :
    (∀ (es : List ContentEntry) (s : String) (e : ContentEntry),
        getBySlug es s = .ok e → e ∈ es ∧ e.slug = s) ∧
    (∀ (es : List ContentEntry) (s : String),
        (∀ e ∈ es, e.slug ≠ s) → getBySlug es s = .error .NotFound) ∧
    (∀ (es : List ContentEntry) (s : String) (e : ContentEntry),
        e ∈ es → e.slug = s → (es.map ContentEntry.slug).Nodup →
        getBySlug es s = .ok e) ∧
    getBySlug blogEntries "nonexistent" = .error .NotFound := by
  refine ⟨?_, ?_, ?_, rfl⟩
  · intro es s e h
    cases hf : es.find? (fun x => x.slug == s) with
    | none => rw [show getBySlug es s = .error .NotFound from by simp [getBySlug, hf]] at h; cases h
    | some e2 =>
      rw [show getBySlug es s = .ok e2 from by simp [getBySlug, hf]] at h
      cases h
      refine ⟨List.mem_of_find?_eq_some hf, ?_⟩
      have := List.find?_some hf
      exact eq_of_beq this
  · intro es s h
    have hf : es.find? (fun x => x.slug == s) = none := by
      rw [List.find?_eq_none]
      intro x hx
      simpa using h x hx
    simp [getBySlug, hf]
  · intro es s e hmem hslug hnodup
    suffices hfind : es.find? (fun x => x.slug == s) = some e by
      simp [getBySlug, hfind]
    induction es with
    | nil => cases hmem
    | cons a as ih =>
      rcases List.mem_cons.mp hmem with rfl | hmem2
      · simp [List.find?_cons, hslug]
      · have has : a.slug ≠ s := by
          intro hcontra
          have hsin : s ∈ as.map ContentEntry.slug :=
            List.mem_map.mpr ⟨e, hmem2, hslug⟩
          have hnin := (List.nodup_cons.mp hnodup).1
          rw [hcontra] at hnin
          exact hnin hsin
        rw [List.find?_cons, show (a.slug == s) = false from beq_eq_false_iff_ne.mpr has]
        exact ih hmem2 (List.nodup_cons.mp hnodup).2

/-- C7 witness: the three general conjuncts evaluated on one- and
two-entry collections. -/
theorem C7_get_by_slug_witness :
    (eA ∈ [eA] ∧ eA.slug = "a-post") ∧
    getBySlug [eA] "zz" = .error .NotFound ∧
    getBySlug [eA, eB] "b-post" = .ok eB :=
  ⟨ C7_get_by_slug.1 [eA] "a-post" eA rfl
  , C7_get_by_slug.2.1 [eA] "zz" (by decide)
  , C7_get_by_slug.2.2.1 [eA, eB] "b-post" eB (by decide) rfl (by decide) ⟩

/-- C8: draft entries never appear in production-mode list() output at
any limit; preview-mode list() keeps exactly the input entries; an
absent draft field validates to false; and a non-draft entry is always
included in the production list. -/
theorem C8_draft_exclusion :
    (∀ (es : List ContentEntry) (limit : Option Nat) (e : ContentEntry),
        e.frontmatter.draft = true → e ∉ listEntries .production limit es) ∧
    (∀ (es : List ContentEntry) (e : ContentEntry),
        e ∈ listEntries .preview none es ↔ e ∈ es) ∧
    (∀ (c : Collection) (raw : RawFrontmatter) (fm : Frontmatter),
        validateFrontmatter c raw = .ok fm → raw.draft = none → fm.draft = false) ∧
    (∀ (es : List ContentEntry) (e : ContentEntry),
        e ∈ es → e.frontmatter.draft = false → e ∈ listEntries .production none es) := by
  refine ⟨?_, ?_, ?_, ?_⟩
  · intro es limit e hdraft hmem
    have hmem2 : e ∈ List.insertionSort entryOrder (es.filter (keepEntry .production)) := by
      cases limit with
      | none => simpa [listEntries] using hmem
      | some k => exact (List.take_sublist k _).mem (by simpa [listEntries] using hmem)
    have hmem3 : e ∈ es.filter (keepEntry .production) :=
      (List.mem_insertionSort entryOrder).mp hmem2
    have hkeep := List.of_mem_filter hmem3
    simp [keepEntry, hdraft] at hkeep
  · intro es e
    simp [listEntries, List.mem_insertionSort, keepEntry]
  · intro c raw fm hv hnone
    obtain ⟨ot, od, ods, odraft, orep, odemo⟩ := raw
    simp only at hnone
    cases ot with
    | none => simp [validateFrontmatter] at hv
    | some t =>
      cases od with
      | none => simp [validateFrontmatter] at hv
      | some d =>
        cases ods with
        | none => simp [validateFrontmatter] at hv
        | some ds =>
          simp only [validateFrontmatter] at hv
          by_cases hte : t = ""
          · rw [if_pos hte] at hv; cases hv
          · rw [if_neg hte] at hv
            cases hpd : parseDate ds with
            | none => simp [hpd] at hv
            | some dn =>
              simp only [hpd] at hv
              by_cases hu1 : urlOk orep = false
              · rw [if_pos hu1] at hv; cases hv
              · rw [if_neg hu1] at hv
                by_cases hu2 : urlOk odemo = false
                · rw [if_pos hu2] at hv; cases hv
                · rw [if_neg hu2] at hv
                  cases hv
                  subst hnone
                  rfl
  · intro es e hmem hdraft
    have hmem2 : e ∈ es.filter (keepEntry .production) :=
      List.mem_filter.mpr ⟨hmem, by simp [keepEntry, hdraft]⟩
    simpa [listEntries, List.mem_insertionSort] using hmem2

/-- C8 witness: a draft entry is excluded from the production list and
included in preview; the planning post's frontmatter — which has no
draft key — validates to draft=false; a non-draft entry stays listed. -/
theorem C8_draft_exclusion_witness :
    (eDraft.frontmatter.draft = true ∧ eDraft ∉ listEntries .production none [eDraft]) ∧
    (eDraft ∈ listEntries .preview none [eDraft] ↔ eDraft ∈ [eDraft]) ∧
    (planningRaw.draft = none ∧
      { title := "Cloud Inventory: Planning the project"
      , description := "Outlining the why, what, and how of my cloud inventory."
      , date := 20240616
      , draft := false
      , repoURL := none
      , demoURL := none : Frontmatter }.draft = false) ∧
    (eA ∈ [eA] ∧ eA ∈ listEntries .production none [eA]) :=
  ⟨ ⟨rfl, C8_draft_exclusion.1 [eDraft] none eDraft rfl⟩
  , C8_draft_exclusion.2.1 [eDraft] eDraft
  , ⟨rfl, C8_draft_exclusion.2.2.1 .blog planningRaw _ rfl rfl⟩
  , ⟨by decide, C8_draft_exclusion.2.2.2 [eA] eA (by decide) rfl⟩ ⟩

end SitePipeline

namespace SitePipeline

/-- C9: none of the repository's frontmatter blocks declares a draft
key, so every built entry defaults to draft=false and the
production-mode and preview-mode list() outputs coincide on both
collections of this content set. -/
theorem C9_modes_coincide_on_repo_content :
    planningRaw.draft = none ∧ signupRaw.draft = none ∧ oneofRaw.draft = none ∧
    cloudInventoryRaw.draft = none ∧
    blogEntries.all (fun e => !e.frontmatter.draft) = true ∧
    projectEntries.all (fun e => !e.frontmatter.draft) = true ∧
    listEntries .production none blogEntries = listEntries .preview none blogEntries ∧
    listEntries .production none projectEntries = listEntries .preview none projectEntries := by
  refine ⟨rfl, rfl, rfl, rfl, rfl, rfl, ?_, ?_⟩ <;> decide

/-- C10: a limit at least the number of kept entries returns the whole
sorted sequence — truncation past the end is benign; the homepage limit
NUM_POSTS_ON_HOMEPAGE = 5 exceeds the three blog entries, so every blog
post appears in the homepage list. -/
theorem C10_limit_past_end_benign :
    (∀ (m : Mode) (es : List ContentEntry) (k : Nat),
        (es.filter (keepEntry m)).length ≤ k →
        listEntries m (some k) es = listEntries m none es) ∧
    SITE.NUM_POSTS_ON_HOMEPAGE = 5 ∧
    blogEntries.length = 3 ∧
    listEntries .production (some SITE.NUM_POSTS_ON_HOMEPAGE) blogEntries
      = listEntries .production none blogEntries ∧
    (∀ e ∈ blogEntries,
        e ∈ listEntries .production (some SITE.NUM_POSTS_ON_HOMEPAGE) blogEntries) := by
  refine ⟨?_, rfl, by decide, by decide, by decide⟩
  intro m es k hk
  show (List.insertionSort entryOrder (es.filter (keepEntry m))).take k
      = List.insertionSort entryOrder (es.filter (keepEntry m))
  apply List.take_of_length_le
  rw [List.length_insertionSort]
  exact hk

/-- C10 witness: the benign-limit conjunct on a one-entry collection
with limit 5, and the appears-on-homepage conjunct at the planning
post. -/
theorem C10_limit_past_end_benign_witness :
    (([eA].filter (keepEntry .production)).length ≤ 5 ∧
      listEntries .production (some 5) [eA] = listEntries .production none [eA]) ∧
    (planningEntry ∈ blogEntries ∧
      planningEntry ∈ listEntries .production (some SITE.NUM_POSTS_ON_HOMEPAGE) blogEntries) :=
  ⟨ ⟨by decide, C10_limit_past_end_benign.1 .production [eA] 5 (by decide)⟩
  , ⟨by decide, C10_limit_past_end_benign.2.2.2.2 planningEntry (by decide)⟩ ⟩

end SitePipeline
